import Mathlib

/-!
Verification of the analogue-forecast module (Yanase/modelo1.py): the rolling
12-month correlation engine `calc_corr_last12` and the analogue model class
`SimpleCorrelation12` with its `fit`/`predict` methods.

Modelling choices (shallow embedding):
* A pandas monthly `Period` is its ordinal: an integer counting months, with
  ordinal 0 = January 1970 (pandas' own convention for freq='M').  The calendar
  month number of an ordinal `m` is `m.emod 12 + 1` and its year is
  `1970 + m.fdiv 12`.
* A DataFrame is a record of an index (list of month ordinals), a flag saying
  whether the index is a pandas PeriodIndex of monthly frequency (the only
  property of the index object that `calc_corr_last12` inspects, via
  `isinstance(df_hist.index.freq, MonthEnd)`), the list of column labels, and
  the rows.  Cell values are exact rationals.
* A correlation cell stores the *signed square* q = s_xy*|s_xy|/(s_xx*s_yy) of
  the Pearson correlation r = s_xy/sqrt(s_xx*s_yy): the map q ↦ sign(q)*sqrt|q|
  is a strictly monotone bijection with fixed point 1, so this encoding
  preserves the ordering used by `sort_values` and the value 1.0 exactly; the
  bridge is made precise by `sgnSqrt`, `pearsonR` and the lemmas about them.
  Undefined correlations (windows shorter than 12, or zero variance, which
  pandas reports as NaN) are encoded as `none`.
* Exceptions are explicit: `calc_corr_last12` and `predict` return `Except`,
  and `fit` returns the (possibly partially mutated) object together with an
  optional error, mirroring the state a raised Python exception leaves behind.
* `sort_values(ascending=False)` is modelled by a stable sort that puts larger
  values first and missing values last, which is pandas' documented behaviour
  (default `na_position='last'`; NaNs keep their original relative order).
* `.loc[start:]` on the (monotonic) monthly index is modelled by dropping the
  leading rows whose month is smaller than `start`.
-/

namespace Modelo1

/-- Calendar month number (1..12) of a month ordinal, as in pandas
`PeriodIndex.month` for freq='M' (ordinal 0 = 1970-01, a January). -/
def monthOf (m : ℤ) : ℤ := m % 12 + 1

/-- Calendar year of a month ordinal (ordinal 0 = 1970-01). -/
def yearOf (m : ℤ) : ℤ := 1970 + m.fdiv 12

/-- `periodRange s n` is the list of `n` consecutive month ordinals starting at
`s`; the model of `pd.period_range(s, periods=n, freq='M')`. -/
def periodRange (s : ℤ) : ℕ → List ℤ
  | 0 => []
  | n + 1 => s :: periodRange (s + 1) n

/-- Ascending list of `n` naturals starting at `s` (row positions). -/
def natsFrom (s : ℕ) : ℕ → List ℕ
  | 0 => []
  | n + 1 => s :: natsFrom (s + 1) n

/-- The last `n` elements of a list: `l.iloc[-n:]`. -/
def takeLast (n : ℕ) (l : List α) : List α := l.drop (l.length - n)

/-- Whether a list of month ordinals is contiguous (each entry is its
predecessor plus one). -/
def contigB : List ℤ → Bool
  | [] => true
  | [_] => true
  | a :: b :: t => decide (b = a + 1) && contigB (b :: t)

/-- Sum of pointwise products of two (equal-length) lists of rationals. -/
def dot (xs ys : List ℚ) : ℚ := ((xs.zip ys).map (fun pr => pr.1 * pr.2)).sum

/-- Arithmetic mean of a list of rationals. -/
def mean (xs : List ℚ) : ℚ := xs.sum / (xs.length : ℚ)

/-- Deviations from the mean. -/
def devs (xs : List ℚ) : List ℚ := xs.map (fun x => x - mean xs)

/-- Centered cross sum `s_xy = Σ (x_i - mean x) * (y_i - mean y)`. -/
def sxy (xs ys : List ℚ) : ℚ := dot (devs xs) (devs ys)

/-- Centered sum of squares `s_xx` (12 times the biased window variance). -/
def sxx (xs : List ℚ) : ℚ := sxy xs xs

/-- Signed square of the Pearson correlation of two samples:
`q = s_xy * |s_xy| / (s_xx * s_yy)`, so that the correlation itself is
`sign q * sqrt |q|` (see `sgnSqrt_pearsonSS`). -/
def pearsonSS (xs ys : List ℚ) : ℚ := sxy xs ys * |sxy xs ys| / (sxx xs * sxx ys)

/-- Windowed Pearson correlation (in signed-square encoding), `none` when
either sample has zero variance — pandas returns NaN there. -/
def pearsonOpt (xs ys : List ℚ) : Option ℚ :=
  if sxx xs = 0 ∨ sxx ys = 0 then none else some (pearsonSS xs ys)

/-- The signed square root, decoding `pearsonSS` into the actual Pearson
correlation value. -/
noncomputable def sgnSqrt (q : ℚ) : ℝ :=
  if q < 0 then -Real.sqrt (-(q : ℝ)) else Real.sqrt (q : ℝ)

/-- The real Pearson correlation `s_xy / sqrt (s_xx * s_yy)`. -/
noncomputable def pearsonR (xs ys : List ℚ) : ℝ :=
  (sxy xs ys : ℝ) / Real.sqrt ((sxx xs : ℝ) * (sxx ys : ℝ))

/-- The DataFrame model: month-ordinal index, a flag recording whether the
index is a monthly-frequency PeriodIndex, integer column labels, and rows of
cells. -/
structure DFr (α : Type) where
  index : List ℤ
  isPeriodM : Bool
  cols : List ℕ
  data : List (List α)
deriving DecidableEq, Repr

/-- A numeric DataFrame (the input history). -/
abbrev DF := DFr ℚ

/-- A correlation DataFrame: cells are optional (NaN = `none`). -/
abbrev CorrDF := DFr (Option ℚ)

/-- Column at position `j` (with default `d` for short rows). -/
def DFr.colAt (df : DFr α) (j : ℕ) (d : α) : List α :=
  df.data.map (fun r => r.getD j d)

/-- The last `n` rows, `df.iloc[-n:]`. -/
def DFr.takeLastRows (df : DFr α) (n : ℕ) : DFr α :=
  { index := takeLast n df.index, isPeriodM := df.isPeriodM,
    cols := df.cols, data := takeLast n df.data }

/-- The Python exceptions the module can raise. -/
inductive Err
  /-- "Favor informar dataframe periodizado mensalmente." -/
  | formatError
  /-- IndexError from `.iloc[0]` on an empty selection (or an empty index). -/
  | indexError
  /-- KeyError from selecting a missing column. -/
  | keyError
  /-- "Realizar o fit do modelo antes". -/
  | notFitted
  /-- AttributeError from using an attribute that is still None. -/
  | attrError
deriving DecidableEq, Repr

/-- First row of `df_trecho` whose calendar month is `mn`:
`df_trecho[df_trecho.index.month == month].iloc[0]`. -/
def trechoRowFor (trecho : DF) (mn : ℤ) : Option (List ℚ) :=
  ((trecho.index.zip trecho.data).find? (fun pr => decide (monthOf pr.1 = mn))).map
    (fun pr => pr.2)

/-- The table produced by the broadcast loop when it succeeds: every row is
the trailing-window row of the matching calendar month. -/
def mkOtherPayload (df trecho : DF) : DF :=
  { index := df.index, isPeriodM := df.isPeriodM, cols := df.cols,
    data := df.index.map (fun i => (trechoRowFor trecho (monthOf i)).getD []) }

/-- The broadcast step of `calc_corr_last12`: every row is replaced by the
trailing-window row of the same calendar month.  The loop body evaluates
`df_trecho[...].iloc[0]` for every month 1..12, so it raises IndexError as soon
as some calendar month is absent from the trailing window. -/
def mkOther (df trecho : DF) : Except Err DF :=
  if ∀ k ∈ natsFrom 0 12, ∃ i ∈ trecho.index, monthOf i = (k : ℤ) + 1 then
    .ok (mkOtherPayload df trecho)
  else .error .indexError

/-- The 12 values ending at row position `p` of a column. -/
def windowAt (xs : List ℚ) (p : ℕ) : List ℚ := (xs.drop (p - 11)).take 12

/-- `df_ref.rolling(12).corr(df_other)`: for each row position and column, the
correlation of the two size-12 windows ending there; positions with fewer than
12 preceding rows are NaN (`none`). -/
def rollingCorr12 (ref other : DF) : CorrDF :=
  { index := ref.index, isPeriodM := ref.isPeriodM, cols := ref.cols,
    data := (natsFrom 0 ref.index.length).map (fun p =>
      (natsFrom 0 ref.cols.length).map (fun j =>
        if 11 ≤ p then
          pearsonOpt (windowAt (ref.colAt j 0) p) (windowAt (other.colAt j 0) p)
        else none)) }

/-- `df_corr[df_corr.index.month == t]`: keep the rows whose calendar month
is `t`, preserving order. -/
def filterByMonth (dfc : CorrDF) (t : ℤ) : CorrDF :=
  { index := ((dfc.index.zip dfc.data).filter (fun pr => decide (monthOf pr.1 = t))).map
      (fun pr => pr.1),
    isPeriodM := dfc.isPeriodM, cols := dfc.cols,
    data := ((dfc.index.zip dfc.data).filter (fun pr => decide (monthOf pr.1 = t))).map
      (fun pr => pr.2) }

/-- The Correlation Engine `calc_corr_last12`.  It validates only that the
index is a monthly-frequency PeriodIndex, takes the trailing 12 rows,
broadcasts them over the copy, computes the rolling correlation and keeps the
rows ending in the same calendar month as the trailing window's last row. -/
def calc_corr_last12 (df_hist : DF) : Except Err CorrDF :=
  if df_hist.isPeriodM = false then .error .formatError
  else
    match mkOther df_hist (df_hist.takeLastRows 12) with
    | .error e => .error e
    | .ok df_other =>
        .ok (filterByMonth (rollingCorr12 df_hist df_other)
              (monthOf (((df_hist.takeLastRows 12).index.getLast?).getD 0)))

/-- The model object.  Fields that Python initialises to `None` in
`__init__` and only assigns during `fit` are `Option`s. -/
structure SimpleCorrelation12 where
  coluna : ℕ
  posicao : ℕ
  df_base : Option DF
  df_correlacao : Option CorrDF
  period : Option ℤ
  correlacao : Option (Option ℚ)
  correlacao_outros : Option (List (Option ℚ))
  mes_final_periodo : Option (ℤ × ℤ)
deriving DecidableEq, Repr

/-- `SimpleCorrelation12(coluna, posicao)`: a freshly constructed model
(the Python default for `posicao` is 1). -/
def SimpleCorrelation12.make (coluna posicao : ℕ) : SimpleCorrelation12 :=
  ⟨coluna, posicao, none, none, none, none, none, none⟩

/-- Comparator of `sort_values(ascending=False)` on optional correlation
values: larger values first, missing values (NaN) after every present value. -/
def corrDescLE : Option ℚ → Option ℚ → Bool
  | some a, some b => decide (b ≤ a)
  | some _, none => true
  | none, some _ => false
  | none, none => true

/-- The comparator as a relation on (period, value) pairs. -/
def corrRel (a b : ℤ × Option ℚ) : Prop := corrDescLE a.2 b.2 = true

instance : DecidableRel corrRel := fun a b =>
  inferInstanceAs (Decidable (corrDescLE a.2 b.2 = true))

instance : IsTotal (ℤ × Option ℚ) corrRel :=
  ⟨by
    intro a b
    rcases a with ⟨ka, va⟩
    rcases b with ⟨kb, vb⟩
    rcases va with _ | qa <;> rcases vb with _ | qb <;>
      simp [corrRel, corrDescLE] <;> exact le_total qb qa⟩

instance : IsTrans (ℤ × Option ℚ) corrRel :=
  ⟨by
    intro a b c hab hbc
    rcases a with ⟨ka, va⟩
    rcases b with ⟨kb, vb⟩
    rcases c with ⟨kc, vc⟩
    rcases va with _ | qa <;> rcases vb with _ | qb <;> rcases vc with _ | qc <;>
      simp_all [corrRel, corrDescLE] <;> exact le_trans hbc hab⟩

/-- The reference column of the correlation table as (period, value) pairs:
the Series `df_correlacao[coluna]`. -/
def corrPairs (dfc : CorrDF) (c : ℕ) : List (ℤ × Option ℚ) :=
  dfc.index.zip (dfc.colAt (dfc.cols.indexOf c) none)

/-- `top_corr = df_correlacao[coluna].sort_values(ascending=False)`:
descending stable sort with missing values last. -/
def fitTop (dfc : CorrDF) (c : ℕ) : List (ℤ × Option ℚ) :=
  List.insertionSort corrRel (corrPairs dfc c)

/-- `df_correlacao.loc[label]`: the (first) row with the given index label. -/
def rowAtLabel (dfc : CorrDF) (l : ℤ) : List (Option ℚ) :=
  (((dfc.index.zip dfc.data).find? (fun pr => decide (pr.1 = l))).map
    (fun pr => pr.2)).getD []

/-- `fit`: stores the history, builds the correlation table, sorts the
reference column descending and keeps the entry at 0-based offset `posicao`.
The returned pair is the mutated object together with the raised exception, if
any; note `self.df_base` is assigned *before* the engine can fail. -/
def SimpleCorrelation12.fit (m : SimpleCorrelation12) (df_base : DF) :
    SimpleCorrelation12 × Option Err :=
  match calc_corr_last12 df_base with
  | .error e => ({ m with df_base := some df_base }, some e)
  | .ok dfc =>
    if m.coluna ∈ dfc.cols then
      match (fitTop dfc m.coluna)[m.posicao]? with
      | none =>
          ({ m with df_base := some df_base, df_correlacao := some dfc },
           some .indexError)
      | some sel =>
          ({ m with
              df_base := some df_base
              df_correlacao := some dfc
              period := some sel.1
              correlacao := some sel.2
              correlacao_outros := some (rowAtLabel dfc sel.1)
              mes_final_periodo := some (yearOf sel.1, monthOf sel.1) },
           none)
    else
      ({ m with df_base := some df_base, df_correlacao := some dfc },
       some .keyError)

/-- Python slicing `l[:n]` for a possibly negative `n` (`.iloc[:n]`). -/
def ilocTake (n : ℤ) (l : List α) : List α :=
  if 0 ≤ n then l.take n.toNat else l.take (l.length - n.natAbs)

/-- `num_meses if num_meses else (13 - mes_escolhido_ini.month)`: Python
truthiness makes 0 fall back to the year-end default. -/
def numMesesVal (p : ℤ) : Option ℤ → ℤ
  | some k => if k ≠ 0 then k else 13 - monthOf (p + 1)
  | none => 13 - monthOf (p + 1)

/-- `df_base.loc[mes_escolhido_ini:].iloc[:n]` as (month, row) pairs, where
`mes_escolhido_ini = period + 1`. -/
def chosenRows (df : DF) (p : ℤ) (n : ℤ) : List (ℤ × List ℚ) :=
  ilocTake n ((df.index.zip df.data).dropWhile (fun pr => decide (pr.1 < p + 1)))

/-- `predict`: take up to `num_meses` rows of the stored history starting
right after the selected period, and re-index them onto the months right after
the history's last month. -/
def SimpleCorrelation12.predict (m : SimpleCorrelation12) (num_meses : Option ℤ) :
    Except Err DF :=
  match m.period with
  | none => .error .notFitted
  | some p =>
    match m.df_base with
    | none => .error .attrError
    | some df =>
      match df.index.getLast? with
      | none => .error .indexError
      | some lastM =>
          .ok { index := periodRange (lastM + 1)
                  (chosenRows df p (numMesesVal p num_meses)).length,
                isPeriodM := true,
                cols := df.cols,
                data := (chosenRows df p (numMesesVal p num_meses)).map
                  (fun pr => pr.2) }

/-- A well-formed monthly history: monthly PeriodIndex, contiguous, at least
12 rows, rectangular data, no duplicate column labels. -/
abbrev ValidDF (df : DF) : Prop :=
  df.isPeriodM = true ∧ contigB df.index = true ∧ 12 ≤ df.index.length ∧
    df.data.length = df.index.length ∧
    (∀ r ∈ df.data, r.length = df.cols.length) ∧ df.cols.Nodup

/-- A 24-month, one-column history (column label 6).  Months 0..11 hold
1,2,...,1,3 and the trailing window (months 12..23) holds the alternating
pattern 1,2,...,1,2, so the two anniversary windows have the distinct
correlation encodings 49/59 and 1. -/
def df24 : DF :=
  ⟨periodRange 0 24, true, [6],
    [[1], [2], [1], [2], [1], [2], [1], [2], [1], [2], [1], [3],
     [1], [2], [1], [2], [1], [2], [1], [2], [1], [2], [1], [2]]⟩

/-- The correlation table of `df24`. -/
def dfc24 : CorrDF := ⟨[11, 23], true, [6], [[some (49 / 59)], [some 1]]⟩

/-- The state of a model with reference column 6 and offset 1 after fitting
`df24`: the sorted column is [(23, 1), (11, 49/59)], so offset 1 selects
period 11 (1970-12). -/
def s24 : SimpleCorrelation12 :=
  ⟨6, 1, some df24, some dfc24, some 11, some (some (49 / 59)),
    some [some (49 / 59)], some (1970, 12)⟩

/-- A 24-month, one-column constant history: every correlation is undefined
(zero variance), so the sorted column keeps the original order of the two
anniversary rows and offset 1 selects the trailing window itself (month 23). -/
def dfConst24 : DF := ⟨periodRange 0 24, true, [6], List.replicate 24 [5]⟩

/-- An 11-row contiguous monthly history: it passes the entry validation of
`calc_corr_last12` (the frequency check) but dies later with IndexError in the
broadcast loop, since its trailing window misses a calendar month. -/
def df11 : DF := ⟨periodRange 0 11, true, [6], List.replicate 11 [1]⟩

/-- A table whose index is not a monthly PeriodIndex: the only input shape the
engine's entry validation rejects. -/
def badDf : DF := ⟨[0, 1, 2], false, [6], [[1], [2], [3]]⟩

/-- The correlation table of `dfConst24`: both anniversary windows have zero
variance, hence undefined (NaN) correlations. -/
def dfcConst24 : CorrDF := ⟨[11, 23], true, [6], [[none], [none]]⟩

/-- The state of a model with reference column 6 and offset 1 after fitting the
constant history: every correlation is missing, so the stable sort keeps the
original order [(11, none), (23, none)] and offset 1 selects period 23, the
final month of the history itself. -/
def sConst24 : SimpleCorrelation12 :=
  ⟨6, 1, some dfConst24, some dfcConst24, some 23, some none, some [none],
    some (1971, 12)⟩

/-! ## Generic helper lemmas -/

theorem periodRange_length (s : ℤ) (n : ℕ) : (periodRange s n).length = n := by
  induction n generalizing s with
  | zero => rfl
  | succ k ih => simp [periodRange, ih]

theorem periodRange_getElem (s : ℤ) (n : ℕ) (i : ℕ)
    (h : i < (periodRange s n).length) : (periodRange s n)[i] = s + i := by
  induction n generalizing s i with
  | zero => simp [periodRange_length] at h
  | succ k ih =>
    cases i with
    | zero => simp [periodRange]
    | succ j =>
      have hj : j < (periodRange (s + 1) k).length := by
        simpa [periodRange_length] using h
      simp only [periodRange, List.getElem_cons_succ, ih (s + 1) j hj]
      push_cast
      ring

theorem natsFrom_length (s n : ℕ) : (natsFrom s n).length = n := by
  induction n generalizing s with
  | zero => rfl
  | succ k ih => simp [natsFrom, ih]

theorem natsFrom_getElem (s n i : ℕ) (h : i < (natsFrom s n).length) :
    (natsFrom s n)[i] = s + i := by
  induction n generalizing s i with
  | zero => simp [natsFrom_length] at h
  | succ k ih =>
    cases i with
    | zero => simp [natsFrom]
    | succ j =>
      have hj : j < (natsFrom (s + 1) k).length := by
        simpa [natsFrom_length] using h
      simp only [natsFrom, List.getElem_cons_succ, ih (s + 1) j hj]
      omega

theorem takeLast_length (n : ℕ) (l : List α) :
    (takeLast n l).length = l.length - (l.length - n) := by
  simp [takeLast]

theorem takeLast_length_of_le (n : ℕ) (l : List α) (h : n ≤ l.length) :
    (takeLast n l).length = n := by
  simp [takeLast]
  omega

theorem takeLast_getElem (n : ℕ) (l : List α) (i : ℕ)
    (h : i < (takeLast n l).length) (h2 : l.length - n + i < l.length) :
    (takeLast n l)[i] = l[l.length - n + i] := by
  simp [takeLast]

theorem contigB_cons (a : ℤ) (l : List ℤ) (h : contigB (a :: l) = true) :
    contigB l = true := by
  cases l with
  | nil => rfl
  | cons b t =>
    have := h
    simp only [contigB, Bool.and_eq_true, decide_eq_true_eq] at this
    exact this.2

theorem contigB_eq_periodRange (l : List ℤ) (h : contigB l = true) :
    l = periodRange (l.headD 0) l.length := by
  induction l with
  | nil => rfl
  | cons a t ih =>
    cases t with
    | nil => rfl
    | cons b t2 =>
      have hb : b = a + 1 := by
        have := h
        simp only [contigB, Bool.and_eq_true, decide_eq_true_eq] at this
        exact this.1
      have ht : contigB (b :: t2) = true := contigB_cons a _ h
      have ih2 := ih ht
      simp only [List.headD_cons, List.length_cons, periodRange] at ih2 ⊢
      have h3 : t2 = periodRange (b + 1) t2.length := by
        have := congrArg List.tail ih2
        simpa using this
      rw [← hb, ← h3]

theorem contigB_getElem (l : List ℤ) (h : contigB l = true) (i : ℕ)
    (hi : i < l.length) : l[i] = l.headD 0 + i := by
  rw [List.getElem_of_eq (contigB_eq_periodRange l h) hi]
  exact periodRange_getElem _ _ _ _

theorem dot_self_nonneg (l : List ℚ) : 0 ≤ dot l l := by
  induction l with
  | nil => simp [dot]
  | cons x t ih =>
    have : dot (x :: t) (x :: t) = x * x + dot t t := by simp [dot]
    rw [this]
    nlinarith

theorem sxx_nonneg (l : List ℚ) : 0 ≤ sxx l := dot_self_nonneg _

/-- Pearson self-correlation in the signed-square encoding: a sample with
nonzero variance correlates with itself with value exactly 1. -/
theorem pearsonOpt_self (l : List ℚ) (h : sxx l ≠ 0) :
    pearsonOpt l l = some 1 := by
  have hpos : 0 < sxx l := lt_of_le_of_ne (sxx_nonneg l) (Ne.symm h)
  unfold pearsonOpt
  rw [if_neg (by push_neg; exact ⟨h, h⟩)]
  unfold pearsonSS
  have hxy : sxy l l = sxx l := rfl
  rw [hxy, abs_of_pos hpos]
  congr 1
  field_simp

/-! ## Evaluation of the concrete example tables -/

theorem calc24_eval : calc_corr_last12 df24 = .ok dfc24 := by
  have h1 : pearsonOpt [1, 2, 1, 2, 1, 2, 1, 2, 1, 2, 1, 3]
      [1, 2, 1, 2, 1, 2, 1, 2, 1, 2, 1, 2] = some (49 / 59) := by
    norm_num [pearsonOpt, pearsonSS, sxx, sxy, dot, devs, mean, List.zip_cons_cons,
      abs_of_nonneg]
  have h2 : pearsonOpt [1, 2, 1, 2, 1, 2, 1, 2, 1, 2, 1, 2]
      [1, 2, 1, 2, 1, 2, 1, 2, 1, 2, 1, 2] = some 1 := by
    norm_num [pearsonOpt, pearsonSS, sxx, sxy, dot, devs, mean, List.zip_cons_cons,
      abs_of_nonneg]
  have hstep : calc_corr_last12 df24 =
      .ok (filterByMonth (rollingCorr12 df24
        ⟨periodRange 0 24, true, [6],
          [[1], [2], [1], [2], [1], [2], [1], [2], [1], [2], [1], [2],
           [1], [2], [1], [2], [1], [2], [1], [2], [1], [2], [1], [2]]⟩) 12) := by rfl
  rw [hstep]
  simp only [filterByMonth, rollingCorr12, df24, dfc24, periodRange, natsFrom,
    DFr.colAt, windowAt, monthOf, List.map_cons, List.map_nil, List.zip_cons_cons,
    List.zip_nil_right, List.zip_nil_left, List.filter_cons, List.filter_nil,
    List.length_cons, List.length_nil, List.getD, List.getElem?_cons_zero,
    List.getElem?_cons_succ, List.drop_succ_cons, List.drop_nil, List.take_succ_cons,
    List.take_nil, List.drop_zero]
  norm_num [h1, h2]

theorem fitTop24_eval : fitTop dfc24 6 = [(23, some 1), (11, some (49 / 59))] := by
  norm_num [fitTop, corrPairs, dfc24, DFr.colAt, List.insertionSort, List.orderedInsert,
    corrRel, corrDescLE, List.indexOf_cons_self, List.getD, List.getElem?_cons_zero,
    List.zip_cons_cons]

theorem fit24_eval : (SimpleCorrelation12.make 6 1).fit df24 = (s24, none) := by
  simp only [SimpleCorrelation12.fit, SimpleCorrelation12.make, calc24_eval]
  rw [fitTop24_eval]
  rfl

theorem calcConst24_eval : calc_corr_last12 dfConst24 = .ok dfcConst24 := by
  have h1 : pearsonOpt [5, 5, 5, 5, 5, 5, 5, 5, 5, 5, 5, 5]
      [5, 5, 5, 5, 5, 5, 5, 5, 5, 5, 5, 5] = none := by
    norm_num [pearsonOpt, pearsonSS, sxx, sxy, dot, devs, mean, List.zip_cons_cons]
  have hstep : calc_corr_last12 dfConst24 =
      .ok (filterByMonth (rollingCorr12 dfConst24 dfConst24) 12) := by rfl
  rw [hstep]
  simp only [filterByMonth, rollingCorr12, dfConst24, dfcConst24, periodRange, natsFrom,
    DFr.colAt, windowAt, monthOf, List.replicate, List.map_cons, List.map_nil,
    List.zip_cons_cons, List.zip_nil_right, List.zip_nil_left, List.filter_cons,
    List.filter_nil, List.length_cons, List.length_nil, List.getD,
    List.getElem?_cons_zero, List.getElem?_cons_succ, List.drop_succ_cons,
    List.drop_nil, List.take_succ_cons, List.take_nil, List.drop_zero]
  norm_num [h1]

theorem fitConst24_eval :
    (SimpleCorrelation12.make 6 1).fit dfConst24 = (sConst24, none) := by
  simp only [SimpleCorrelation12.fit, SimpleCorrelation12.make, calcConst24_eval]
  rfl

/-! ## Error-path lemmas -/

theorem mkOther_error_eq (df t : DF) (e : Err) (h : mkOther df t = .error e) :
    e = .indexError := by
  unfold mkOther at h
  split at h
  · exact Except.noConfusion h
  · exact (Except.error.inj h).symm

theorem monthOf_bounds (m : ℤ) : 1 ≤ monthOf m ∧ monthOf m ≤ 12 := by
  unfold monthOf
  omega

theorem ilocTake_length_le (n : ℤ) (hn : 0 ≤ n) (l : List α) :
    (ilocTake n l).length ≤ n.toNat := by
  unfold ilocTake
  rw [if_pos hn]
  simp [List.length_take]

/-- C2 (amended): the Correlation Engine's entry validation raises the format
error exactly when the index is not a monthly-frequency period index; neither
the row count nor contiguity is checked at entry. -/
theorem calc_corr_formatError_iff (df : DF) :
    calc_corr_last12 df = .error .formatError ↔ df.isPeriodM = false := by
  constructor
  · intro h
    cases hb : df.isPeriodM
    · rfl
    · exfalso
      unfold calc_corr_last12 at h
      rw [hb, if_neg (by simp)] at h
      split at h
      · rename_i e he
        have h1 : e = Err.indexError := mkOther_error_eq _ _ _ he
        have h2 : e = Err.formatError := Except.error.inj h
        rw [h1] at h2
        exact Err.noConfusion h2
      · exact Except.noConfusion h
  · intro h
    unfold calc_corr_last12
    rw [h]
    rfl

/-- C2 witness for the amended biconditional: a non-periodized index is
rejected with the format error. -/
theorem calc_corr_formatError_iff_witness :
    calc_corr_last12 badDf = .error .formatError :=
  (calc_corr_formatError_iff badDf).mpr rfl

/-- C2 counterexample: an 11-row contiguous monthly table — which the claim
says must fail with the format error at entry — passes the entry validation
and instead dies later in the broadcast step with an index error. -/
theorem calc_corr_validation_counterexample :
    df11.isPeriodM = true ∧ contigB df11.index = true ∧ df11.index.length < 12 ∧
    calc_corr_last12 df11 = .error .indexError ∧
    calc_corr_last12 df11 ≠ .error .formatError := by
  refine ⟨rfl, by decide, by decide, rfl, ?_⟩
  rw [show calc_corr_last12 df11 = .error .indexError from rfl]
  simp

/-- C6 (amended): an input-validation failure of the Correlation Engine
propagates out of `fit` unchanged, but the stored history `df_base` has
already been replaced by then; all other fitted state is untouched. -/
theorem fit_propagates_engine_error (m : SimpleCorrelation12) (df : DF) (e : Err)
    (h : calc_corr_last12 df = .error e) :
    m.fit df = ({ m with df_base := some df }, some e) := by
  unfold SimpleCorrelation12.fit
  rw [h]

/-- C6 witness: the format error raised on `badDf` propagates unchanged
through `fit` and only `df_base` is mutated. -/
theorem fit_propagates_engine_error_witness :
    (SimpleCorrelation12.make 6 1).fit badDf =
      ({ SimpleCorrelation12.make 6 1 with df_base := some badDf },
       some .formatError) :=
  fit_propagates_engine_error _ _ _ rfl

/-- C6 counterexample: after a failed `fit` on a fresh model the model state
is *not* unchanged — the stored history has been assigned before validation. -/
theorem fit_failed_keeps_history :
    ((SimpleCorrelation12.make 6 1).fit badDf).2 = some .formatError ∧
    ((SimpleCorrelation12.make 6 1).fit badDf).1.df_base = some badDf ∧
    ((SimpleCorrelation12.make 6 1).fit badDf).1 ≠ SimpleCorrelation12.make 6 1 := by
  refine ⟨rfl, rfl, ?_⟩
  intro h
  exact Option.noConfusion (congrArg SimpleCorrelation12.df_base h)

/-- C4 (amended): `predict` on a freshly constructed model always raises the
not-fitted error, and in general the error is raised exactly when no selected
period is stored, i.e. when no successful `fit` has happened — which also
covers models whose `fit` call failed. -/
theorem predict_notFitted_characterization :
    (∀ c p n, (SimpleCorrelation12.make c p).predict n = .error .notFitted) ∧
    ∀ (m : SimpleCorrelation12) (n : Option ℤ),
      m.predict n = .error .notFitted ↔ m.period = none := by
  constructor
  · intro c p n
    rfl
  · intro m n
    constructor
    · intro h
      cases hp : m.period with
      | none => rfl
      | some p =>
        exfalso
        simp only [SimpleCorrelation12.predict, hp] at h
        cases hb : m.df_base with
        | none =>
          simp only [hb] at h
          exact Err.noConfusion (Except.error.inj h)
        | some df =>
          simp only [hb] at h
          cases hl : df.index.getLast? with
          | none =>
            simp only [hl] at h
            exact Err.noConfusion (Except.error.inj h)
          | some lastM =>
            simp only [hl] at h
            exact Except.noConfusion h
    · intro h
      simp only [SimpleCorrelation12.predict, h]

/-- C4 witness: the first half of the characterization at a concrete fresh
model. -/
theorem predict_notFitted_characterization_witness :
    (SimpleCorrelation12.make 6 1).predict none = .error .notFitted :=
  predict_notFitted_characterization.1 6 1 none

/-- C4 counterexample: the not-fitted error is *not* raised only on freshly
constructed models — a model whose `fit` call failed (and whose state differs
from any fresh model) raises it too. -/
theorem predict_notFitted_after_failed_fit :
    ((SimpleCorrelation12.make 6 1).fit badDf).2 = some .formatError ∧
    ((SimpleCorrelation12.make 6 1).fit badDf).1 ≠ SimpleCorrelation12.make 6 1 ∧
    ((SimpleCorrelation12.make 6 1).fit badDf).1.predict none =
      .error .notFitted := by
  refine ⟨rfl, ?_, rfl⟩
  intro h
  exact Option.noConfusion (congrArg SimpleCorrelation12.df_base h)

/-- C9 (amended): `predict` with `num_months = 0` behaves exactly like
`predict` with no argument — Python truthiness sends 0 to the default
year-end horizon. -/
theorem predict_zero_defaults (m : SimpleCorrelation12) :
    m.predict (some 0) = m.predict none := by
  unfold SimpleCorrelation12.predict
  cases m.period with
  | none => rfl
  | some p =>
    cases m.df_base with
    | none => rfl
    | some df =>
      cases df.index.getLast? with
      | none => rfl
      | some lastM => simp [numMesesVal]

/-- C9 counterexample: a fitted model for which `predict(0)` returns an
*empty* table (the claim asserts this cannot happen): on the constant history
the selected analogue period is the final month itself, so no continuation
rows exist. -/
theorem predict_zero_empty_counterexample :
    ((SimpleCorrelation12.make 6 1).fit dfConst24).2 = none ∧
    ((SimpleCorrelation12.make 6 1).fit dfConst24).1.predict (some 0) =
      .ok ⟨[], true, [6], []⟩ := by
  rw [fitConst24_eval]
  exact ⟨rfl, rfl⟩

/-- C5: when `num_months` is omitted, `predict` behaves exactly as if the
default `13 - month(chosen start month)` had been passed, and the returned
table has at most that many rows. -/
theorem predict_default_horizon (m : SimpleCorrelation12) (p : ℤ) (r : DF)
    (hp : m.period = some p) (hr : m.predict none = .ok r) :
    m.predict none = m.predict (some (13 - monthOf (p + 1))) ∧
    r.index.length ≤ (13 - monthOf (p + 1)).toNat := by
  have hd : 0 < 13 - monthOf (p + 1) := by
    have := monthOf_bounds (p + 1)
    omega
  have hval : numMesesVal p none = numMesesVal p (some (13 - monthOf (p + 1))) := by
    simp only [numMesesVal]
    rw [if_pos hd.ne']
  constructor
  · simp only [SimpleCorrelation12.predict, hp]
    cases hb : m.df_base with
    | none => rfl
    | some df =>
      dsimp only
      cases hl : df.index.getLast? with
      | none => rfl
      | some lastM =>
        dsimp only
        rw [← hval]
  · simp only [SimpleCorrelation12.predict, hp] at hr
    cases hb : m.df_base with
    | none => simp only [hb] at hr; exact Except.noConfusion hr
    | some df =>
      simp only [hb] at hr
      cases hl : df.index.getLast? with
      | none => simp only [hl] at hr; exact Except.noConfusion hr
      | some lastM =>
        simp only [hl] at hr
        have hrr := (Except.ok.inj hr).symm
        rw [hrr]
        simp only [periodRange_length]
        unfold numMesesVal
        exact ilocTake_length_le _ hd.le _

/-- C5 witness: the fitted example model s24 — its analogue period is 1970-12,
so the chosen start month is January and the default horizon is 12 months. -/
theorem predict_default_horizon_witness :
    s24.predict none = s24.predict (some (13 - monthOf (11 + 1))) ∧
    (⟨periodRange 24 12, true, [6],
      [[1], [2], [1], [2], [1], [2], [1], [2], [1], [2], [1], [2]]⟩ : DF).index.length ≤
      (13 - monthOf (11 + 1)).toNat :=
  predict_default_horizon s24 11 _ rfl rfl

/-! ## Lemmas about the label slice `.loc[start:]` on a contiguous index -/

theorem periodRange_getLast? (a : ℤ) (n : ℕ) (hn : 1 ≤ n) :
    (periodRange a n).getLast? = some (a + n - 1) := by
  induction n generalizing a with
  | zero => omega
  | succ k ih =>
    cases k with
    | zero => simp [periodRange]
    | succ j =>
      have h1 : periodRange a (j + 1 + 1) = a :: periodRange (a + 1) (j + 1) := rfl
      have h2 : periodRange (a + 1) (j + 1) = (a + 1) :: periodRange (a + 1 + 1) j := rfl
      rw [h1, h2, List.getLast?_cons_cons, ← h2, ih (a + 1) (by omega)]
      congr 1
      push_cast
      ring

theorem dropWhile_zip_periodRange (a : ℤ) (n : ℕ) (data : List (List ℚ)) (s : ℤ) :
    ((periodRange a n).zip data).dropWhile (fun pr => decide (pr.1 < s)) =
      ((periodRange a n).zip data).drop ((s - a).toNat) := by
  induction n generalizing a data with
  | zero => simp [periodRange]
  | succ k ih =>
    cases data with
    | nil => simp [periodRange]
    | cons d ds =>
      simp only [periodRange, List.zip_cons_cons]
      by_cases hc : a < s
      · rw [List.dropWhile_cons_of_pos (by simpa using hc), ih (a + 1) ds]
        have ht : (s - a).toNat = (s - (a + 1)).toNat + 1 := by omega
        rw [ht, List.drop_succ_cons]
      · rw [List.dropWhile_cons_of_neg (by simpa using hc)]
        have ht : (s - a).toNat = 0 := by omega
        rw [ht, List.drop_zero]

/-- C3: on a fitted model whose stored history is a contiguous monthly table
ending at month `M`, `predict` with a valid (positive) `num_months` returns a
table with the history's column set, a contiguous monthly index starting at
`M + 1`, and at most `num_months` rows — fewer exactly when the analogue
continuation `(p, M]` runs past the end of the available history. -/
theorem predict_shape (m : SimpleCorrelation12) (p M : ℤ) (df : DF) (n : ℤ) (r : DF)
    (hp : m.period = some p) (hb : m.df_base = some df)
    (hcontig : contigB df.index = true)
    (hlen : df.data.length = df.index.length)
    (hM : df.index.getLast? = some M) (hmem : p ∈ df.index)
    (hn : 1 ≤ n) (hr : m.predict (some n) = .ok r) :
    r.cols = df.cols ∧ r.index = periodRange (M + 1) r.index.length ∧
    r.index.length ≤ n.toNat ∧ (r.index.length < n.toNat → M - p < n) := by
  simp only [SimpleCorrelation12.predict, hp, hb, hM] at hr
  have hnum : numMesesVal p (some n) = n := by
    simp only [numMesesVal]
    rw [if_pos (by omega)]
  rw [hnum] at hr
  have hrr := (Except.ok.inj hr).symm
  subst hrr
  refine ⟨rfl, ?_, ?_, ?_⟩
  · simp only [periodRange_length]
  · simp only [periodRange_length]
    exact ilocTake_length_le n (by omega) _
  · intro hlt
    simp only [periodRange_length] at hlt
    -- identify the index as a periodRange
    have hidx := contigB_eq_periodRange df.index hcontig
    have hne : df.index ≠ [] := by
      intro h0
      rw [h0] at hM
      exact Option.noConfusion hM
    have hNpos : 1 ≤ df.index.length := List.length_pos.mpr hne
    have hMa : M = df.index.headD 0 + df.index.length - 1 := by
      rw [hidx, periodRange_getLast? _ _ hNpos] at hM
      exact (Option.some.inj hM).symm
    -- the position of p in the index
    obtain ⟨i, hi, hpi⟩ := List.mem_iff_getElem.mp hmem
    have hpa : p = df.index.headD 0 + i := by
      rw [← hpi]
      exact contigB_getElem df.index hcontig i hi
    -- length of the dropWhile tail
    have htn : (p + 1 - df.index.headD 0).toNat = i + 1 := by omega
    have hzl : ((df.index.zip df.data).dropWhile
        (fun pr => decide (pr.1 < p + 1))).length = df.index.length - (i + 1) := by
      conv_lhs => rw [hidx]
      rw [dropWhile_zip_periodRange _ _ df.data (p + 1)]
      rw [List.length_drop, List.length_zip, periodRange_length, hlen, min_self, htn]
    -- the chosen rows are the whole tail
    unfold chosenRows ilocTake at hlt
    rw [if_pos (by omega : (0:ℤ) ≤ n)] at hlt
    rw [List.length_take, hzl] at hlt
    omega

/-- C3 witness: predicting 3 months from the fitted example model. -/
theorem predict_shape_witness :
    (⟨periodRange 24 3, true, [6], [[1], [2], [1]]⟩ : DF).cols = df24.cols ∧
    (⟨periodRange 24 3, true, [6], [[1], [2], [1]]⟩ : DF).index =
      periodRange (23 + 1)
        (⟨periodRange 24 3, true, [6], [[1], [2], [1]]⟩ : DF).index.length ∧
    (⟨periodRange 24 3, true, [6], [[1], [2], [1]]⟩ : DF).index.length ≤ (3 : ℤ).toNat ∧
    ((⟨periodRange 24 3, true, [6], [[1], [2], [1]]⟩ : DF).index.length < (3 : ℤ).toNat →
      23 - 11 < (3 : ℤ)) :=
  predict_shape s24 11 23 df24 3 _ rfl rfl (by decide) (by decide) (by decide)
    (by decide) (by decide) rfl

/-! ## Lemmas about the descending sort in `fit` -/

theorem mem_take_getElem {l : List α} {n : ℕ} {x : α} (h : x ∈ l.take n) :
    ∃ i, ∃ hi : i < l.length, i < n ∧ l[i] = x := by
  obtain ⟨i, hi, hx⟩ := List.mem_iff_getElem.mp h
  have hi2 : i < l.length ∧ i < n := by
    rw [List.length_take] at hi
    omega
  exact ⟨i, hi2.1, hi2.2, by rw [← hx]; exact (List.getElem_take l).symm⟩

theorem mem_drop_getElem {l : List α} {n : ℕ} {x : α} (h : x ∈ l.drop n) :
    ∃ i, ∃ hi : n + i < l.length, l[n + i] = x := by
  obtain ⟨i, hi, hx⟩ := List.mem_iff_getElem.mp h
  have hi2 : n + i < l.length := by
    rw [List.length_drop] at hi
    omega
  exact ⟨i, hi2, by rw [← hx]; exact (List.getElem_drop l).symm⟩

theorem fit_success_selects (m : SimpleCorrelation12) (df : DF)
    (s : SimpleCorrelation12) (dfc : CorrDF)
    (hok : calc_corr_last12 df = .ok dfc) (hfit : m.fit df = (s, none)) :
    ∃ sel, ∃ hl : m.posicao < (fitTop dfc m.coluna).length,
      (fitTop dfc m.coluna)[m.posicao] = sel ∧
      s.period = some sel.1 ∧ s.correlacao = some sel.2 := by
  simp only [SimpleCorrelation12.fit, hok] at hfit
  split at hfit
  · split at hfit
    · simp at hfit
    · rename_i sel heq
      rw [Prod.mk.injEq] at hfit
      obtain ⟨hs, -⟩ := hfit
      obtain ⟨hl, hsel⟩ := List.getElem?_eq_some_iff.mp heq
      exact ⟨sel, hl, hsel, by rw [← hs], by rw [← hs]⟩
  · simp at hfit

/-- C1: when `fit` succeeds and the reference column's correlation values are
all defined and pairwise distinct, the selected period is a row of the
reference column and exactly `posicao` rows of that column have a strictly
larger correlation — i.e. the column is ranked descending and the 0-based
offset `posicao` is selected (so the default `posicao = 1` picks the
second-best period, not the best). -/
theorem fit_rank_selection (m : SimpleCorrelation12) (df : DF)
    (s : SimpleCorrelation12) (dfc : CorrDF) (k : ℤ) (q : ℚ)
    (hok : calc_corr_last12 df = .ok dfc)
    (hfit : m.fit df = (s, none))
    (hall : ∀ pr ∈ corrPairs dfc m.coluna, pr.2.isSome = true)
    (hnd : ((corrPairs dfc m.coluna).map (fun pr => pr.2)).Nodup)
    (hk : s.period = some k) (hq : s.correlacao = some (some q)) :
    (k, some q) ∈ corrPairs dfc m.coluna ∧
    ((corrPairs dfc m.coluna).filter
      (fun pr => decide (q < pr.2.getD 0))).length = m.posicao := by
  obtain ⟨sel, hl, hsel, hkp, hqp⟩ := fit_success_selects m df s dfc hok hfit
  have hk2 : sel.1 = k := Option.some.inj (hkp.symm.trans hk)
  have hq2 : sel.2 = some q := Option.some.inj (hqp.symm.trans hq)
  have hperm : (fitTop dfc m.coluna).Perm (corrPairs dfc m.coluna) :=
    List.perm_insertionSort corrRel _
  have hpair : List.Pairwise corrRel (fitTop dfc m.coluna) :=
    List.sorted_insertionSort corrRel _
  have hrel := List.pairwise_iff_getElem.mp hpair
  have hsome : ∀ x ∈ fitTop dfc m.coluna, x.2.isSome = true := fun x hx =>
    hall x (hperm.mem_iff.mp hx)
  have hvalnd : ((fitTop dfc m.coluna).map (fun pr => pr.2)).Nodup :=
    ((hperm.map _).nodup_iff).mpr hnd
  have hvne : ∀ i j (hi : i < (fitTop dfc m.coluna).length)
      (hj : j < (fitTop dfc m.coluna).length), i < j →
      (fitTop dfc m.coluna)[i].2 ≠ (fitTop dfc m.coluna)[j].2 := by
    intro i j hi hj hij
    have := List.pairwise_iff_getElem.mp hvalnd i j (by simpa using hi)
      (by simpa using hj) hij
    simpa using this
  -- every entry before the selected one is strictly larger
  have hbefore : ∀ i (hi : i < (fitTop dfc m.coluna).length), i < m.posicao →
      decide (q < (fitTop dfc m.coluna)[i].2.getD 0) = true := by
    intro i hi hip
    obtain ⟨qi, hqi⟩ := Option.isSome_iff_exists.mp
      (hsome _ (List.getElem_mem hi))
    have h1 := hrel i m.posicao hi hl hip
    rw [corrRel, hqi, hsel, hq2] at h1
    simp only [corrDescLE, decide_eq_true_eq] at h1
    have h2 : (fitTop dfc m.coluna)[i].2 ≠ sel.2 := by
      have := hvne i m.posicao hi hl hip
      rw [hsel] at this
      exact this
    rw [hqi, hq2] at h2
    have h3 : q < qi := lt_of_le_of_ne h1 fun he => h2 (by rw [he])
    rw [hqi]
    simpa using h3
  -- the selected entry and everything after it is not strictly larger
  have hafter : ∀ i (hi : i < (fitTop dfc m.coluna).length), m.posicao ≤ i →
      decide (q < (fitTop dfc m.coluna)[i].2.getD 0) = false := by
    intro i hi hip
    rcases eq_or_lt_of_le hip with he | hlt2
    · subst he
      rw [hsel, hq2]
      simp
    · obtain ⟨qi, hqi⟩ := Option.isSome_iff_exists.mp
        (hsome _ (List.getElem_mem hi))
      have h1 := hrel m.posicao i hl hi hlt2
      rw [corrRel, hqi, hsel, hq2] at h1
      simp only [corrDescLE, decide_eq_true_eq] at h1
      have h2 : sel.2 ≠ (fitTop dfc m.coluna)[i].2 := by
        have := hvne m.posicao i hl hi hlt2
        rw [hsel] at this
        exact this
      rw [hqi, hq2] at h2
      have h3 : qi < q := lt_of_le_of_ne h1 fun he => h2 (by rw [he])
      rw [hqi]
      simp
      exact le_of_lt h3
  constructor
  · have hmem : sel ∈ fitTop dfc m.coluna := by
      rw [← hsel]
      exact List.getElem_mem hl
    have : sel = (k, some q) := by
      rw [← hk2, ← hq2]
    rw [← this]
    exact hperm.mem_iff.mp hmem
  · rw [← List.countP_eq_length_filter, ← hperm.countP_eq]
    have hsplit : List.countP (fun pr => decide (q < pr.2.getD 0))
        (fitTop dfc m.coluna) =
        List.countP (fun pr => decide (q < pr.2.getD 0))
          ((fitTop dfc m.coluna).take m.posicao) +
        List.countP (fun pr => decide (q < pr.2.getD 0))
          ((fitTop dfc m.coluna).drop m.posicao) := by
      rw [← List.countP_append, List.take_append_drop]
    rw [hsplit]
    have htake : List.countP (fun pr => decide (q < pr.2.getD 0))
        ((fitTop dfc m.coluna).take m.posicao) = m.posicao := by
      rw [List.countP_eq_length.mpr, List.length_take]
      · omega
      · intro x hx
        obtain ⟨i, hi, hin, hix⟩ := mem_take_getElem hx
        rw [← hix]
        exact hbefore i hi hin
    have hdrop : List.countP (fun pr => decide (q < pr.2.getD 0))
        ((fitTop dfc m.coluna).drop m.posicao) = 0 := by
      rw [List.countP_eq_zero]
      intro x hx
      obtain ⟨j, hj, hjx⟩ := mem_drop_getElem hx
      rw [← hjx]
      rw [hafter (m.posicao + j) hj (by omega)]
      simp
    rw [htake, hdrop]
    omega

/-- C1 witness: fitting the example table with the default `posicao = 1`
selects period 11 (1970-12), whose correlation 49/59 is beaten by exactly one
row — the trailing window itself. -/
theorem fit_rank_selection_witness :
    ((11 : ℤ), some (49 / 59 : ℚ)) ∈ corrPairs dfc24 6 ∧
    ((corrPairs dfc24 6).filter
      (fun pr => decide ((49 / 59 : ℚ) < pr.2.getD 0))).length =
      (SimpleCorrelation12.make 6 1).posicao :=
  fit_rank_selection (SimpleCorrelation12.make 6 1) df24 s24 dfc24 11 (49 / 59)
    calc24_eval fit24_eval
    (by intro pr hpr; fin_cases hpr <;> rfl)
    (by
      show (List.map (fun pr => pr.2) (corrPairs dfc24 6)).Nodup
      have h : (corrPairs dfc24 6).map (fun pr => pr.2) =
          [some (49 / 59), some 1] := rfl
      rw [h]
      norm_num)
    rfl rfl

/-- C10: in a successful `fit`, rows with missing correlation are placed after
every row with a defined correlation in the descending sort, and hence, when
`posicao` is smaller than the number of defined correlations in the reference
column, the selected entry's stored correlation value is defined. -/
theorem fit_missing_ranked_last (m : SimpleCorrelation12) (df : DF)
    (s : SimpleCorrelation12) (dfc : CorrDF) (v : Option ℚ)
    (hok : calc_corr_last12 df = .ok dfc)
    (hfit : m.fit df = (s, none))
    (hv : s.correlacao = some v)
    (hlt : m.posicao <
      ((corrPairs dfc m.coluna).filter (fun pr => pr.2.isSome)).length) :
    (∀ i j (hi : i < (fitTop dfc m.coluna).length)
        (hj : j < (fitTop dfc m.coluna).length), i ≤ j →
        (fitTop dfc m.coluna)[j].2.isSome = true →
        (fitTop dfc m.coluna)[i].2.isSome = true) ∧
    v.isSome = true := by
  obtain ⟨sel, hl, hsel, hkp, hqp⟩ := fit_success_selects m df s dfc hok hfit
  have hv2 : sel.2 = v := Option.some.inj (hqp.symm.trans hv)
  have hperm : (fitTop dfc m.coluna).Perm (corrPairs dfc m.coluna) :=
    List.perm_insertionSort corrRel _
  have hpair : List.Pairwise corrRel (fitTop dfc m.coluna) :=
    List.sorted_insertionSort corrRel _
  have hrel := List.pairwise_iff_getElem.mp hpair
  have hpfx : ∀ i j (hi : i < (fitTop dfc m.coluna).length)
      (hj : j < (fitTop dfc m.coluna).length), i ≤ j →
      (fitTop dfc m.coluna)[j].2.isSome = true →
      (fitTop dfc m.coluna)[i].2.isSome = true := by
    intro i j hi hj hij hjs
    rcases eq_or_lt_of_le hij with he | hlt2
    · subst he
      exact hjs
    · by_contra his
      have hnone : (fitTop dfc m.coluna)[i].2 = none := by
        cases hcase : (fitTop dfc m.coluna)[i].2 with
        | none => rfl
        | some a => rw [hcase] at his; simp at his
      obtain ⟨b, hb⟩ := Option.isSome_iff_exists.mp hjs
      have h1 := hrel i j hi hj hlt2
      rw [corrRel, hnone, hb] at h1
      simp [corrDescLE] at h1
  refine ⟨hpfx, ?_⟩
  rw [← hv2]
  by_contra hns
  have hnone : sel.2 = none := by
    cases hcase : sel.2 with
    | none => rfl
    | some a => rw [hcase] at hns; simp at hns
  -- then every entry from position `posicao` on is missing
  have hallnone : ∀ j (hj : j < (fitTop dfc m.coluna).length), m.posicao ≤ j →
      ((fitTop dfc m.coluna)[j].2.isSome) = false := by
    intro j hj hpj
    by_contra hjs
    have hjs2 : (fitTop dfc m.coluna)[j].2.isSome = true := by
      cases hcase : (fitTop dfc m.coluna)[j].2.isSome
      · rw [hcase] at hjs; exact absurd rfl hjs
      · rfl
    have := hpfx m.posicao j hl hj hpj hjs2
    rw [hsel, hnone] at this
    simp at this
  -- so the number of defined entries is at most `posicao`
  have hcount : ((corrPairs dfc m.coluna).filter
      (fun pr => pr.2.isSome)).length ≤ m.posicao := by
    rw [← List.countP_eq_length_filter, ← hperm.countP_eq]
    have hsplit : List.countP (fun pr => pr.2.isSome) (fitTop dfc m.coluna) =
        List.countP (fun pr => pr.2.isSome)
          ((fitTop dfc m.coluna).take m.posicao) +
        List.countP (fun pr => pr.2.isSome)
          ((fitTop dfc m.coluna).drop m.posicao) := by
      rw [← List.countP_append, List.take_append_drop]
    have hdrop : List.countP (fun pr => pr.2.isSome)
        ((fitTop dfc m.coluna).drop m.posicao) = 0 := by
      rw [List.countP_eq_zero]
      intro x hx
      obtain ⟨j, hj, hjx⟩ := mem_drop_getElem hx
      rw [← hjx]
      rw [hallnone (m.posicao + j) hj (by omega)]
      simp
    calc List.countP (fun pr => pr.2.isSome) (fitTop dfc m.coluna)
        = _ + _ := hsplit
      _ ≤ m.posicao := by
          rw [hdrop]
          have := List.countP_le_length (l := (fitTop dfc m.coluna).take m.posicao)
            (p := fun pr => pr.2.isSome)
          rw [List.length_take] at this
          omega
  omega

/-- C10 witness: on the example table both anniversary correlations are
defined, so with `posicao = 1 < 2` the stored correlation is defined. -/
theorem fit_missing_ranked_last_witness :
    (∀ i j (hi : i < (fitTop dfc24 6).length)
        (hj : j < (fitTop dfc24 6).length), i ≤ j →
        (fitTop dfc24 6)[j].2.isSome = true →
        (fitTop dfc24 6)[i].2.isSome = true) ∧
    (some (49 / 59 : ℚ)).isSome = true :=
  fit_missing_ranked_last (SimpleCorrelation12.make 6 1) df24 s24 dfc24
    (some (49 / 59)) calc24_eval fit24_eval rfl (by decide)

/-! ## Lemmas about the broadcast step and the correlation table -/

theorem mem_natsFrom (s n x : ℕ) : x ∈ natsFrom s n ↔ s ≤ x ∧ x < s + n := by
  induction n generalizing s with
  | zero =>
    simp only [natsFrom, List.not_mem_nil, false_iff]
    omega
  | succ k ih =>
    simp only [natsFrom, List.mem_cons, ih]
    omega

theorem find?_eq_some_of_unique {p : α → Bool} {l : List α} {x : α}
    (hx : x ∈ l) (hpx : p x = true) (huniq : ∀ y ∈ l, p y = true → y = x) :
    l.find? p = some x := by
  induction l with
  | nil => simp at hx
  | cons a t ih =>
    by_cases hpa : p a = true
    · rw [List.find?_cons_of_pos _ hpa, huniq a (List.mem_cons_self a t) hpa]
    · rw [List.find?_cons_of_neg _ hpa]
      rcases List.mem_cons.mp hx with he | ht
      · subst he
        exact absurd hpx hpa
      · exact ih ht (fun y hy hpy => huniq y (List.mem_cons_of_mem _ hy) hpy)

theorem exists_month_in_range (a mn : ℤ) (h1 : 1 ≤ mn) (h2 : mn ≤ 12) :
    ∃ j : ℕ, j < 12 ∧ monthOf (a + j) = mn :=
  ⟨((mn - 1 - a) % 12).toNat, by omega, by unfold monthOf; omega⟩

theorem monthOf_inj12 (a : ℤ) (i j : ℕ) (hi : i < 12) (hj : j < 12)
    (h : monthOf (a + i) = monthOf (a + j)) : i = j := by
  unfold monthOf at h
  omega

theorem takeLast_index_getElem (df : DF) (hcontig : contigB df.index = true)
    (hN : 12 ≤ df.index.length) (i : ℕ) (hi : i < (takeLast 12 df.index).length) :
    (takeLast 12 df.index)[i] = df.index.headD 0 + df.index.length - 12 + i := by
  have hi12 : i < 12 := by rwa [takeLast_length_of_le _ _ hN] at hi
  have hb : df.index.length - 12 + i < df.index.length := by omega
  rw [takeLast_getElem 12 df.index i hi hb, contigB_getElem df.index hcontig _ hb]
  omega

theorem mkOther_ok_of_valid (df : DF) (hv : ValidDF df) :
    mkOther df (df.takeLastRows 12) = .ok (mkOtherPayload df (df.takeLastRows 12)) := by
  obtain ⟨hP, hcontig, hN, hlen, hrows, hnd⟩ := hv
  unfold mkOther
  rw [if_pos]
  intro k hk
  have hk12 : k < 12 := by
    have := (mem_natsFrom 0 12 k).mp hk
    omega
  obtain ⟨j, hj12, hmon⟩ := exists_month_in_range
    (df.index.headD 0 + df.index.length - 12) ((k : ℤ) + 1) (by omega) (by omega)
  have hjlt : j < (takeLast 12 df.index).length := by
    rw [takeLast_length_of_le _ _ hN]
    exact hj12
  refine ⟨(takeLast 12 df.index).get ⟨j, hjlt⟩, ?_, ?_⟩
  · show (takeLast 12 df.index).get ⟨j, hjlt⟩ ∈ takeLast 12 df.index
    exact List.get_mem _ _ hjlt
  · rw [List.get_eq_getElem, takeLast_index_getElem df hcontig hN j hjlt]
    exact hmon

theorem broadcast_row_eq (df : DF) (hv : ValidDF df) (pq : ℕ)
    (hlo : df.index.length - 12 ≤ pq) (hhi : pq < df.index.length)
    (hd : pq < df.data.length) :
    (trechoRowFor (df.takeLastRows 12) (monthOf df.index[pq])).getD [] = df.data[pq] := by
  obtain ⟨hP, hcontig, hN, hlen, hrows, hnd⟩ := hv
  have hleni : (takeLast 12 df.index).length = 12 := takeLast_length_of_le _ _ hN
  have hlend : (takeLast 12 df.data).length = 12 :=
    takeLast_length_of_le _ _ (by omega)
  have hzlen : ((takeLast 12 df.index).zip (takeLast 12 df.data)).length = 12 := by
    rw [List.length_zip, hleni, hlend, min_self]
  have hi0lt : pq - (df.index.length - 12) <
      ((takeLast 12 df.index).zip (takeLast 12 df.data)).length := by omega
  have hpq1 : df.index.length - 12 + (pq - (df.index.length - 12)) = pq := by omega
  have hx : ((takeLast 12 df.index).zip (takeLast 12 df.data))[pq - (df.index.length - 12)] =
      (df.index[pq], df.data[pq]) := by
    rw [List.getElem_zip]
    have e1 : (takeLast 12 df.index)[pq - (df.index.length - 12)] = df.index[pq] := by
      rw [takeLast_getElem 12 df.index _ (by omega) (by omega)]
      simp only [hpq1]
    have e2 : (takeLast 12 df.data)[pq - (df.index.length - 12)] = df.data[pq] := by
      rw [takeLast_getElem 12 df.data _ (by omega) (by omega)]
      have hpq2 : df.data.length - 12 + (pq - (df.index.length - 12)) = pq := by omega
      simp only [hpq2]
    rw [e1, e2]
  have hfind : ((takeLast 12 df.index).zip (takeLast 12 df.data)).find?
      (fun pr => decide (monthOf pr.1 = monthOf df.index[pq])) =
      some (df.index[pq], df.data[pq]) := by
    apply find?_eq_some_of_unique
    · exact List.mem_iff_getElem.mpr ⟨pq - (df.index.length - 12), hi0lt, hx⟩
    · simp
    · intro y hy hpy
      obtain ⟨j2, hj2, hyj⟩ := List.mem_iff_getElem.mp hy
      have hj212 : j2 < 12 := by omega
      have hyfst : y.1 = df.index.headD 0 + df.index.length - 12 + j2 := by
        rw [← hyj, List.getElem_zip]
        exact takeLast_index_getElem df hcontig hN j2 (by omega)
      have hidxpq : df.index[pq] = df.index.headD 0 + pq :=
        contigB_getElem df.index hcontig pq hhi
      rw [decide_eq_true_eq, hyfst, hidxpq] at hpy
      have hpy2 : monthOf (df.index.headD 0 + df.index.length - 12 + (j2 : ℤ)) =
          monthOf (df.index.headD 0 + df.index.length - 12 +
            ((pq - (df.index.length - 12) : ℕ) : ℤ)) := by
        rw [hpy]
        congr 1
        omega
      have := monthOf_inj12 (df.index.headD 0 + df.index.length - 12) j2
        (pq - (df.index.length - 12)) hj212 (by omega) hpy2
      rw [← hyj, ← hx]
      congr 1
  unfold trechoRowFor
  rw [show (DFr.takeLastRows df 12).index = takeLast 12 df.index from rfl,
    show (DFr.takeLastRows df 12).data = takeLast 12 df.data from rfl, hfind]
  rfl

theorem zip_filter_month_fst {β : Type} (l : List ℤ) (mm : List β)
    (hlen : mm.length = l.length) (t : ℤ) :
    ((l.zip mm).filter (fun pr => decide (monthOf pr.1 = t))).map (fun pr => pr.1) =
      l.filter (fun i => decide (monthOf i = t)) := by
  induction l generalizing mm with
  | nil => simp
  | cons a tl ih =>
    cases mm with
    | nil => simp at hlen
    | cons b mb =>
      have hlen2 : mb.length = tl.length := by simpa using hlen
      cases hpa : decide (monthOf a = t) with
      | true => simp [List.filter_cons, hpa, ih mb hlen2]
      | false => simp [List.filter_cons, hpa, ih mb hlen2]

theorem takeLast_getLast? (n : ℕ) (hn : 1 ≤ n) (l : List α) (hl : l ≠ []) :
    (takeLast n l).getLast? = l.getLast? := by
  unfold takeLast
  rw [List.getLast?_eq_getElem?, List.getLast?_eq_getElem?, List.length_drop,
    List.getElem?_drop]
  congr 1
  have : 0 < l.length := List.length_pos.mpr hl
  omega

theorem getLast?_filter_of_pos {p : α → Bool} : ∀ {l : List α} {x : α},
    l.getLast? = some x → p x = true → (l.filter p).getLast? = some x := by
  intro l
  induction l with
  | nil =>
    intro x h hp
    simp at h
  | cons a t ih =>
    intro x hl hpx
    cases t with
    | nil =>
      simp only [List.getLast?_singleton, Option.some.injEq] at hl
      subst hl
      simp [List.filter_cons, hpx]
    | cons b t2 =>
      rw [List.getLast?_cons_cons] at hl
      have ihres := ih hl hpx
      have hne : (b :: t2).filter p ≠ [] := by
        intro h0
        rw [h0] at ihres
        simp at ihres
      rw [List.filter_cons]
      by_cases hpa : p a = true
      · rw [if_pos hpa]
        cases hfe : (b :: t2).filter p with
        | nil => exact absurd hfe hne
        | cons c cs =>
          rw [hfe] at ihres
          rw [List.getLast?_cons_cons]
          exact ihres
      · rw [if_neg hpa]
        exact ihres

theorem windowAt_last (xs : List ℚ) (h12 : 12 ≤ xs.length) :
    windowAt xs (xs.length - 1) = takeLast 12 xs := by
  unfold windowAt takeLast
  have h1 : xs.length - 1 - 11 = xs.length - 12 := by omega
  rw [h1]
  apply List.take_of_length_le
  rw [List.length_drop]
  omega

theorem rollingCorr12_data_length (ref other : DF) :
    (rollingCorr12 ref other).data.length = ref.index.length := by
  simp [rollingCorr12, natsFrom_length]

theorem calc_corr_decomp (df : DF) (hv : ValidDF df) :
    calc_corr_last12 df =
      .ok (filterByMonth
        (rollingCorr12 df (mkOtherPayload df (df.takeLastRows 12)))
        (monthOf (df.index.getLast?.getD 0))) := by
  have hv2 := hv
  obtain ⟨hP, hcontig, hN, hlen, hrows, hnd⟩ := hv2
  unfold calc_corr_last12
  rw [hP, if_neg (by simp), mkOther_ok_of_valid df hv]
  dsimp only
  have hlast : (df.takeLastRows 12).index.getLast? = df.index.getLast? := by
    show (takeLast 12 df.index).getLast? = df.index.getLast?
    refine takeLast_getLast? 12 (by omega) df.index ?_
    intro h0
    rw [h0] at hN
    simp at hN
  rw [hlast]

/-- C8: the Correlation Table's rows are exactly the input months whose
calendar month matches that of the input's (= trailing window's) last row, in
input order, and its columns are the input's columns. -/
theorem calc_corr_rows_cols (df : DF) (dfc : CorrDF) (hv : ValidDF df)
    (hok : calc_corr_last12 df = .ok dfc) :
    dfc.index = df.index.filter
      (fun i => decide (monthOf i = monthOf (df.index.getLast?.getD 0))) ∧
    dfc.cols = df.cols := by
  have hdecomp := calc_corr_decomp df hv
  rw [hok] at hdecomp
  have hdfc := Except.ok.inj hdecomp
  subst hdfc
  constructor
  · show (((rollingCorr12 df (mkOtherPayload df (df.takeLastRows 12))).index.zip
        (rollingCorr12 df (mkOtherPayload df (df.takeLastRows 12))).data).filter
        (fun pr => decide (monthOf pr.1 = monthOf (df.index.getLast?.getD 0)))).map
        (fun pr => pr.1) = _
    rw [show (rollingCorr12 df (mkOtherPayload df (df.takeLastRows 12))).index =
      df.index from rfl]
    exact zip_filter_month_fst df.index _ (rollingCorr12_data_length _ _) _
  · rfl

/-- C8 witness: the rows of the example correlation table are the two December
months of the input, and the column set is preserved. -/
theorem calc_corr_rows_cols_witness :
    dfc24.index = df24.index.filter
      (fun i => decide (monthOf i = monthOf (df24.index.getLast?.getD 0))) ∧
    dfc24.cols = df24.cols :=
  calc_corr_rows_cols df24 dfc24 (by decide) calc24_eval

/-- C7: in the final row of the Correlation Table — the trailing window
correlated against itself through the broadcast table — every column whose
trailing-window values have nonzero variance holds the correlation value
exactly 1 (the signed-square encoding of Pearson r = 1.0). -/
theorem rollingCorr12_row (ref other : DF) (pq : ℕ) (h : pq < ref.index.length)
    (hb : pq < (rollingCorr12 ref other).data.length) :
    (rollingCorr12 ref other).data[pq] = (natsFrom 0 ref.cols.length).map (fun j =>
      if 11 ≤ pq then
        pearsonOpt (windowAt (ref.colAt j 0) pq) (windowAt (other.colAt j 0) pq)
      else none) := by
  show ((natsFrom 0 ref.index.length).map _)[pq] = _
  rw [List.getElem_map,
    natsFrom_getElem 0 ref.index.length pq (by rw [natsFrom_length]; exact h)]
  simp only [Nat.zero_add]

theorem corr_self_final (df : DF) (dfc : CorrDF) (row : List (Option ℚ)) (c : ℕ)
    (hv : ValidDF df) (hok : calc_corr_last12 df = .ok dfc) (hc : c ∈ df.cols)
    (hvar : sxx (takeLast 12 (df.colAt (df.cols.indexOf c) 0)) ≠ 0)
    (hrow : dfc.data.getLast? = some row) :
    row.getD (df.cols.indexOf c) none = some 1 := by
  have hv2 := hv
  obtain ⟨hP, hcontig, hN, hlen, hrows, hnd⟩ := hv2
  have hdecomp := calc_corr_decomp df hv
  rw [hok] at hdecomp
  have hdfc := Except.ok.inj hdecomp
  subst hdfc
  have hpos : 0 < df.index.length := by omega
  have hRlen : (rollingCorr12 df (mkOtherPayload df (df.takeLastRows 12))).data.length =
      df.index.length := rollingCorr12_data_length _ _
  have hzlen : ((rollingCorr12 df (mkOtherPayload df (df.takeLastRows 12))).index.zip
      (rollingCorr12 df (mkOtherPayload df (df.takeLastRows 12))).data).length =
      df.index.length := by
    rw [List.length_zip,
      show (rollingCorr12 df (mkOtherPayload df (df.takeLastRows 12))).index =
        df.index from rfl, hRlen, min_self]
  have hlt1 : df.index.length - 1 < df.index.length := by omega
  have hltz : df.index.length - 1 <
      ((rollingCorr12 df (mkOtherPayload df (df.takeLastRows 12))).index.zip
        (rollingCorr12 df (mkOtherPayload df (df.takeLastRows 12))).data).length := by
    omega
  -- the last pair of the zipped table
  have hziplast : ((rollingCorr12 df (mkOtherPayload df (df.takeLastRows 12))).index.zip
      (rollingCorr12 df (mkOtherPayload df (df.takeLastRows 12))).data).getLast? =
      some (df.index[df.index.length - 1],
        (rollingCorr12 df
          (mkOtherPayload df (df.takeLastRows 12))).data[df.index.length - 1]) := by
    have h1 : ((rollingCorr12 df (mkOtherPayload df (df.takeLastRows 12))).index.zip
        (rollingCorr12 df (mkOtherPayload df (df.takeLastRows 12))).data).getLast? =
        ((rollingCorr12 df (mkOtherPayload df (df.takeLastRows 12))).index.zip
          (rollingCorr12 df
            (mkOtherPayload df (df.takeLastRows 12))).data)[df.index.length - 1]? := by
      rw [List.getLast?_eq_getElem?, hzlen]
    rw [h1, List.getElem?_eq_getElem hltz, List.getElem_zip]
    rfl
  have hdflast : df.index.getLast? = some df.index[df.index.length - 1] :=
    (List.getLast?_eq_getElem? df.index).trans (List.getElem?_eq_getElem hlt1)
  -- filtering keeps the last pair
  have hfil : (((rollingCorr12 df (mkOtherPayload df (df.takeLastRows 12))).index.zip
      (rollingCorr12 df (mkOtherPayload df (df.takeLastRows 12))).data).filter
      (fun pr => decide (monthOf pr.1 = monthOf (df.index.getLast?.getD 0)))).getLast? =
      some (df.index[df.index.length - 1],
        (rollingCorr12 df
          (mkOtherPayload df (df.takeLastRows 12))).data[df.index.length - 1]) := by
    apply getLast?_filter_of_pos hziplast
    rw [hdflast]
    simp
  -- hence the last row of the correlation table
  have hrow2 : row = (rollingCorr12 df
      (mkOtherPayload df (df.takeLastRows 12))).data[df.index.length - 1] := by
    have hdata : (filterByMonth
        (rollingCorr12 df (mkOtherPayload df (df.takeLastRows 12)))
        (monthOf (df.index.getLast?.getD 0))).data =
        (((rollingCorr12 df (mkOtherPayload df (df.takeLastRows 12))).index.zip
          (rollingCorr12 df (mkOtherPayload df (df.takeLastRows 12))).data).filter
          (fun pr => decide (monthOf pr.1 = monthOf (df.index.getLast?.getD 0)))).map
          (fun pr => pr.2) := rfl
    rw [hdata, List.getLast?_map, hfil] at hrow
    exact (Option.some.inj hrow).symm
  -- identify the final row of the rolling table
  have hjlt : df.cols.indexOf c < df.cols.length := List.indexOf_lt_length.mpr hc
  have hRget := rollingCorr12_row df (mkOtherPayload df (df.takeLastRows 12))
    (df.index.length - 1) hlt1 (by omega)
  rw [hrow2, hRget]
  have hjlt2 : df.cols.indexOf c < ((natsFrom 0 df.cols.length).map (fun j =>
      if 11 ≤ df.index.length - 1 then
        pearsonOpt (windowAt (df.colAt j 0) (df.index.length - 1))
          (windowAt ((mkOtherPayload df (df.takeLastRows 12)).colAt j 0)
            (df.index.length - 1))
      else none)).length := by
    rw [List.length_map, natsFrom_length]
    exact hjlt
  rw [List.getD_eq_getElem _ _ hjlt2, List.getElem_map,
    natsFrom_getElem 0 df.cols.length _ (by rw [natsFrom_length]; exact hjlt),
    Nat.zero_add, if_pos (by omega)]
  -- the two windows coincide with the trailing window of the column
  have hcolen : (df.colAt (df.cols.indexOf c) 0).length = df.index.length := by
    simp [DFr.colAt, hlen]
  have hocolen : ((mkOtherPayload df (df.takeLastRows 12)).colAt
      (df.cols.indexOf c) 0).length = df.index.length := by
    simp [mkOtherPayload, DFr.colAt]
  have hw1 : windowAt (df.colAt (df.cols.indexOf c) 0) (df.index.length - 1) =
      takeLast 12 (df.colAt (df.cols.indexOf c) 0) := by
    rw [show df.index.length - 1 = (df.colAt (df.cols.indexOf c) 0).length - 1 from
      by rw [hcolen]]
    exact windowAt_last _ (by rw [hcolen]; omega)
  have hw2 : windowAt ((mkOtherPayload df (df.takeLastRows 12)).colAt
      (df.cols.indexOf c) 0) (df.index.length - 1) =
      takeLast 12 (df.colAt (df.cols.indexOf c) 0) := by
    rw [show df.index.length - 1 =
      ((mkOtherPayload df (df.takeLastRows 12)).colAt (df.cols.indexOf c) 0).length - 1
      from by rw [hocolen]]
    rw [windowAt_last _ (by rw [hocolen]; omega)]
    -- the trailing 12 rows of the broadcast table equal the original rows
    apply List.ext_getElem
    · rw [takeLast_length_of_le _ _ (by rw [hocolen]; omega),
        takeLast_length_of_le _ _ (by rw [hcolen]; omega)]
    · intro i h1 h2
      have hi12 : i < 12 := by
        rw [takeLast_length_of_le _ _ (by rw [hocolen]; omega)] at h1
        exact h1
      have hb1 : ((mkOtherPayload df (df.takeLastRows 12)).colAt
          (df.cols.indexOf c) 0).length - 12 + i <
          ((mkOtherPayload df (df.takeLastRows 12)).colAt
            (df.cols.indexOf c) 0).length := by
        rw [hocolen]
        omega
      have hb2 : (df.colAt (df.cols.indexOf c) 0).length - 12 + i <
          (df.colAt (df.cols.indexOf c) 0).length := by
        rw [hcolen]
        omega
      rw [takeLast_getElem _ _ _ h1 hb1, takeLast_getElem _ _ _ h2 hb2]
      have hq1 : ((mkOtherPayload df (df.takeLastRows 12)).colAt
          (df.cols.indexOf c) 0).length - 12 + i = df.index.length - 12 + i := by
        rw [hocolen]
      have hq2 : (df.colAt (df.cols.indexOf c) 0).length - 12 + i =
          df.index.length - 12 + i := by
        rw [hcolen]
      simp only [hq1, hq2]
      have hxlt : df.index.length - 12 + i < df.index.length := by omega
      have hxltd : df.index.length - 12 + i < df.data.length := by omega
      simp only [DFr.colAt, mkOtherPayload, List.getElem_map]
      rw [broadcast_row_eq df hv _ (by omega) hxlt hxltd]
  rw [hw1, hw2]
  exact pearsonOpt_self _ hvar

/-- C7 witness: on the example table the final correlation row holds exactly 1
in the reference column, whose trailing window has nonzero variance. -/
theorem corr_self_final_witness :
    ([some 1] : List (Option ℚ)).getD (df24.cols.indexOf 6) none = some 1 :=
  corr_self_final df24 dfc24 [some 1] 6 (by decide) calc24_eval (by decide)
    (by
      have h : takeLast 12 (df24.colAt (df24.cols.indexOf 6) 0) =
          [1, 2, 1, 2, 1, 2, 1, 2, 1, 2, 1, 2] := rfl
      rw [h]
      norm_num [sxx, sxy, dot, devs, mean, List.zip_cons_cons])
    rfl

/-! ## The signed-square encoding decodes to the real Pearson correlation -/

theorem sgnSqrt_strictMono : StrictMono sgnSqrt := by
  intro a b hab
  unfold sgnSqrt
  rcases lt_or_le a 0 with ha | ha
  · rw [if_pos ha]
    rcases lt_or_le b 0 with hb | hb
    · rw [if_pos hb]
      have h1 : -(b : ℝ) < -(a : ℝ) := by
        have : (a : ℝ) < (b : ℝ) := by exact_mod_cast hab
        linarith
      have h2 : (0 : ℝ) ≤ -(b : ℝ) := by
        have : (b : ℝ) < 0 := by exact_mod_cast hb
        linarith
      have := Real.sqrt_lt_sqrt h2 h1
      linarith
    · rw [if_neg (not_lt.mpr hb)]
      have h1 : 0 < Real.sqrt (-(a : ℝ)) := by
        apply Real.sqrt_pos.mpr
        have : (a : ℝ) < 0 := by exact_mod_cast ha
        linarith
      have h2 : 0 ≤ Real.sqrt (b : ℝ) := Real.sqrt_nonneg _
      linarith
  · rw [if_neg (not_lt.mpr ha), if_neg (not_lt.mpr (le_trans ha hab.le))]
    exact Real.sqrt_lt_sqrt (by exact_mod_cast ha) (by exact_mod_cast hab)

theorem sgnSqrt_one : sgnSqrt 1 = 1 := by
  unfold sgnSqrt
  rw [if_neg (by norm_num)]
  norm_num

/-- The stored cell value is 1 exactly when the Pearson correlation it encodes
is 1. -/
theorem sgnSqrt_eq_one_iff (q : ℚ) : sgnSqrt q = 1 ↔ q = 1 :=
  ⟨fun h => sgnSqrt_strictMono.injective (h.trans sgnSqrt_one.symm),
   fun h => h ▸ sgnSqrt_one⟩

/-- Decoding: the signed square root of the stored value `pearsonSS` is the
real Pearson correlation `pearsonR` whenever both variances are nonzero — so
the `fit` ordering on stored values is the ordering of the true correlations
(`sgnSqrt_strictMono`). -/
theorem sgnSqrt_pearsonSS (xs ys : List ℚ) (hx : sxx xs ≠ 0) (hy : sxx ys ≠ 0) :
    sgnSqrt (pearsonSS xs ys) = pearsonR xs ys := by
  have hxp : 0 < sxx xs := lt_of_le_of_ne (sxx_nonneg xs) (Ne.symm hx)
  have hyp : 0 < sxx ys := lt_of_le_of_ne (sxx_nonneg ys) (Ne.symm hy)
  have hDq : 0 < sxx xs * sxx ys := mul_pos hxp hyp
  have hD : (0 : ℝ) < (sxx xs : ℝ) * (sxx ys : ℝ) := by exact_mod_cast hDq
  have hsD : 0 < Real.sqrt ((sxx xs : ℝ) * (sxx ys : ℝ)) := Real.sqrt_pos.mpr hD
  unfold sgnSqrt pearsonR pearsonSS
  rcases lt_trichotomy (sxy xs ys) 0 with hS | hS | hS
  · have hq : sxy xs ys * |sxy xs ys| / (sxx xs * sxx ys) < 0 := by
      apply div_neg_of_neg_of_pos _ hDq
      have := abs_pos.mpr (ne_of_lt hS)
      nlinarith
    rw [if_pos hq]
    push_cast
    rw [abs_of_neg (show (sxy xs ys : ℝ) < 0 from by exact_mod_cast hS)]
    have h1 : -((sxy xs ys : ℝ) * -(sxy xs ys : ℝ) / ((sxx xs : ℝ) * (sxx ys : ℝ))) =
        (sxy xs ys : ℝ) ^ 2 / ((sxx xs : ℝ) * (sxx ys : ℝ)) := by
      ring
    rw [h1, Real.sqrt_div (sq_nonneg _), Real.sqrt_sq_eq_abs,
      abs_of_neg (show (sxy xs ys : ℝ) < 0 from by exact_mod_cast hS)]
    field_simp
  · rw [hS]
    push_cast
    norm_num
  · have hq : ¬ sxy xs ys * |sxy xs ys| / (sxx xs * sxx ys) < 0 := by
      push_neg
      exact div_nonneg (mul_nonneg hS.le (abs_nonneg _)) hDq.le
    rw [if_neg hq]
    push_cast
    rw [abs_of_pos (show (0 : ℝ) < (sxy xs ys : ℝ) from by exact_mod_cast hS)]
    have h1 : (sxy xs ys : ℝ) * (sxy xs ys : ℝ) / ((sxx xs : ℝ) * (sxx ys : ℝ)) =
        (sxy xs ys : ℝ) ^ 2 / ((sxx xs : ℝ) * (sxx ys : ℝ)) := by
      ring
    rw [h1, Real.sqrt_div (sq_nonneg _), Real.sqrt_sq_eq_abs,
      abs_of_pos (show (0 : ℝ) < (sxy xs ys : ℝ) from by exact_mod_cast hS)]

/-- C9 witness for the amended claim at a concrete fitted model. -/
theorem predict_zero_defaults_witness :
    s24.predict (some 0) = s24.predict none :=
  predict_zero_defaults s24

end Modelo1
